import Mathlib

/-!
# Verification of the swagger-merger normalization-and-merge pipeline

Shallow embedding of `pkg/merger/merger.go`: version detection,
document normalization (server override), the OpenAPI-3 document merge
(paths / components / tags), the top-level `Merge` driver and `GetStats`.

I/O and the external libraries (`gopkg.in/yaml.v3`, `encoding/json`,
`kin-openapi`) are modelled as explicit function parameters or, where a
concrete behavior is needed, as executable models whose doc comments state
what library behavior they capture.
-/

deriving instance DecidableEq for Except

namespace SwaggerMerger

/-- `Server` from merger.go: an API server configuration. -/
structure Server where
  url : String
  description : String
deriving DecidableEq, Repr

/-- `DefaultServers()` from merger.go: the fixed default server list. -/
def DefaultServers : List Server :=
  [ { url := "https://api-dev.domain.com", description := "Development Environment" },
    { url := "https://api-test.domain.com", description := "Test Environment" },
    { url := "https://api-stg.domain.com", description := "Staging Environment" },
    { url := "https://api.domain.com", description := "Production Environment" } ]

/-- `Config` from merger.go.  `servers` is an `Option` because Go
distinguishes a nil slice (`none`, the unset case tested by
`config.Servers == nil`) from a non-nil, possibly empty slice (`some l`). -/
structure Config where
  inputPaths : List String
  outputPath : String
  servers : Option (List Server)
deriving DecidableEq, Repr

/-- `Merger` from merger.go. -/
structure Merger where
  config : Config
deriving DecidableEq, Repr

/-- `New(config)` from merger.go: substitutes `DefaultServers()` only when
`config.Servers == nil`. -/
def New (config : Config) : Merger :=
  match config.servers with
  | none => { config := { config with servers := some DefaultServers } }
  | some _ => { config := config }

/-- `SwaggerVersion` from merger.go. -/
structure SwaggerVersion where
  version : String
  isYAML : Bool
deriving DecidableEq, Repr

/-- `Components` of an `openapi3.T` document, restricted to the five
sub-mappings the merge touches.  Each is an `Option` because a Go map can be
nil (`none`) or non-nil (`some`); the merge initializes nil accumulator
sub-maps and skips nil incoming sub-maps, so the distinction is observable.
A mapping is an association list with unique keys (Go maps cannot hold a
key twice); values are an abstract type `α`. -/
structure Components (α : Type) where
  schemas : Option (List (String × α))
  responses : Option (List (String × α))
  parameters : Option (List (String × α))
  requestBodies : Option (List (String × α))
  headers : Option (List (String × α))
deriving DecidableEq, Repr

/-- The `openapi3.T` document, restricted to the fields merger.go reads or
writes.  `paths` is an `Option` because `openapi3.T.Paths` is a nullable
pointer (`*openapi3.Paths`), and `components` is an `Option` because
`openapi3.T.Components` is likewise a nullable pointer
(`*openapi3.Components` in the kin-openapi versions this code compiles
against); `loader.LoadFromData` leaves both nil when the source document
has no such section.  Path items, component values and tags are an
abstract type `α`.  Go nil and empty slices are indistinguishable under
`append`/`len`, so `tags` is a plain list. -/
structure OpenAPI3T (α : Type) where
  openapi : String
  servers : List Server
  paths : Option (List (String × α))
  components : Option (Components α)
  tags : List α
deriving DecidableEq, Repr

/-- Go map assignment `m[k] = v` on an association list: replace the entry
if the key is present, append it otherwise. -/
def mapSet {α : Type} (m : List (String × α)) (k : String) (v : α) : List (String × α) :=
  if k ∈ m.map Prod.fst then
    m.map (fun p => if p.1 = k then (k, v) else p)
  else
    m ++ [(k, v)]

/-- Go map lookup `m[k]` on an association list. -/
def mapLookup {α : Type} : List (String × α) → String → Option α
  | [], _ => none
  | p :: rest, k => if p.1 = k then some p.2 else mapLookup rest k

/-- `for k, v := range incoming { acc[k] = v }`. -/
def mapSetAll {α : Type} (acc incoming : List (String × α)) : List (String × α) :=
  incoming.foldl (fun a p => mapSet a p.1 p.2) acc

/-- One component sub-map merge step of merger.go: the accumulator sub-map
has already been initialized (non-nil); a nil incoming sub-map is skipped. -/
def mergeComponentMap {α : Type} (acc incoming : Option (List (String × α))) :
    Option (List (String × α)) :=
  match incoming with
  | none => acc
  | some entries => some (mapSetAll (acc.getD []) entries)

/-- The body of the `for i := 1; i < len(docs); i++` loop of
`mergeOpenAPI3`: overlay `doc` onto `merged` (paths, then component
initialization, then components, then tags), in the order of the source.
The component block dereferences both `merged.Components` (the nil check
`merged.Components.Schemas == nil` and the initializing writes) and
`doc.Components` (the reads `doc.Components.Schemas` etc.) with no nil
guard on the pointers themselves, so a nil `Components` pointer on either
side makes the program panic; `none` models that panic (the loop body
never completes and nothing is returned). -/
def mergeStep {α : Type} (merged doc : OpenAPI3T α) : Option (OpenAPI3T α) :=
  -- Merge paths (skipped when doc.Paths is nil; a nil accumulator is
  -- initialized to an empty mapping first; cannot panic).
  let merged :=
    match doc.paths with
    | none => merged
    | some dps => { merged with paths := some (mapSetAll (merged.paths.getD []) dps) }
  match merged.components, doc.components with
  | some mc, some dc =>
    -- Initialize components sub-maps if nil.
    let comps : Components α :=
      { schemas := some (mc.schemas.getD [])
        responses := some (mc.responses.getD [])
        parameters := some (mc.parameters.getD [])
        requestBodies := some (mc.requestBodies.getD [])
        headers := some (mc.headers.getD []) }
    -- Merge components.
    let comps : Components α :=
      { schemas := mergeComponentMap comps.schemas dc.schemas
        responses := mergeComponentMap comps.responses dc.responses
        parameters := mergeComponentMap comps.parameters dc.parameters
        requestBodies := mergeComponentMap comps.requestBodies dc.requestBodies
        headers := mergeComponentMap comps.headers dc.headers }
    -- Merge tags (append; the source's nil guard is a no-op under append).
    some { merged with components := some comps, tags := merged.tags ++ doc.tags }
  | _, _ => none

/-- The loop of `mergeOpenAPI3` over the documents after the first; a
panic (`none`) in any iteration propagates (the program crashes). -/
def mergeFold {α : Type} : List (OpenAPI3T α) → OpenAPI3T α → Option (OpenAPI3T α)
  | [], merged => some merged
  | doc :: rest, merged =>
    match mergeStep merged doc with
    | none => none
    | some merged' => mergeFold rest merged'

/-- `mergeOpenAPI3(docs)` from merger.go: the first document is the
accumulator; each later document is overlaid by `mergeStep`.  The outer
`Option` is `none` when the loop panics (nil `Components` dereference) —
the function then never returns, neither a document nor an error. -/
def mergeOpenAPI3 {α : Type} (docs : List (OpenAPI3T α)) :
    Option (Except String (OpenAPI3T α)) :=
  match docs with
  | [] => some (.error "no documents to merge")
  | d :: rest => (mergeFold rest d).map Except.ok

/-- `processSwaggerFile(filePath)` from merger.go, parametric over the
effectful/library stages it calls: `readF` models `readDataFromPath`,
`detectF` models `detectSwaggerVersion` on the read bytes, `convertF`
models `convertToOpenAPI3`.  After conversion it unconditionally sets
`OpenAPI = "3.0.1"` and rebuilds `Servers` from the configured list. -/
def processSwaggerFile {α : Type} (readF : String → Except String String)
    (detectF : String → Except String SwaggerVersion)
    (convertF : String → SwaggerVersion → Except String (OpenAPI3T α))
    (configServers : List Server) (filePath : String) : Except String (OpenAPI3T α) :=
  match readF filePath with
  | .error e => .error ("failed to read " ++ filePath ++ ": " ++ e)
  | .ok data =>
    match detectF data with
    | .error e => .error ("failed to detect version for " ++ filePath ++ ": " ++ e)
    | .ok version =>
      match convertF data version with
      | .error e => .error ("failed to convert " ++ filePath ++ ": " ++ e)
      | .ok doc =>
        .ok { doc with
          openapi := "3.0.1"
          servers := configServers.map (fun s => { url := s.url, description := s.description }) }

/-- The `for _, filePath := range m.config.InputPaths` loop shared by
`Merge` and `GetStats`: process each input in order, aborting on the first
failure with the `error processing %s` wrap. -/
def processAll {α : Type} (processF : String → Except String (OpenAPI3T α)) :
    List String → Except String (List (OpenAPI3T α))
  | [] => .ok []
  | p :: ps =>
    match processF p with
    | .error e => .error ("error processing " ++ p ++ ": " ++ e)
    | .ok d =>
      match processAll processF ps with
      | .error e => .error e
      | .ok ds => .ok (d :: ds)

/-- `Merge()` from merger.go, parametric over per-file processing
(`processF`), YAML marshalling (`marshalF`) and the file write (`writeF`).
The first component of the result is `none` when the merge panics (the
panic propagates out of `Merge`, which then returns nothing); the second
component is the trace of attempted writes (`os.WriteFile` calls), each a
`(path, content)` pair — the source reaches the write only after every
input processed and the merge and marshalling succeeded, so a panic leaves
the trace empty. -/
def MergeGo {α : Type} (processF : String → Except String (OpenAPI3T α))
    (marshalF : OpenAPI3T α → Except String String)
    (writeF : String → String → Except String Unit)
    (inputPaths : List String) (outputPath : String) :
    Option (Except String Unit) × List (String × String) :=
  if inputPaths = [] then (some (.error "no input paths provided"), [])
  else if outputPath = "" then (some (.error "output path is required"), [])
  else
    match processAll processF inputPaths with
    | .error e => (some (.error e), [])
    | .ok docs =>
      match mergeOpenAPI3 docs with
      | none => (none, [])
      | some (.error e) => (some (.error ("error merging documents: " ++ e)), [])
      | some (.ok merged) =>
        match marshalF merged with
        | .error e => (some (.error ("error marshaling to YAML: " ++ e)), [])
        | .ok out =>
          match writeF outputPath out with
          | .error e => (some (.error ("error writing file: " ++ e)), [(outputPath, out)])
          | .ok _ => (some (.ok ()), [(outputPath, out)])

/-- Models `len(merged.Paths.Map())` in `GetStats`: `Map()` has a pointer
receiver and reads a field of it, so calling it on a nil `*openapi3.Paths`
dereferences a nil pointer and panics; `none` models that panic. -/
def pathsMapLen {α : Type} : Option (List (String × α)) → Option Nat
  | none => none
  | some m => some m.length

/-- `GetStats()` from merger.go, parametric over per-file processing.  The
outer `Option` is `none` when the merge call panics (propagated, nothing
returned); `some (.error e)` is a returned error; the inner `Option` is
`none` when the stats construction itself panics on the unguarded
`merged.Paths.Map()` dereference, and otherwise carries the stats map
entries in source order.  `len` of a nil Go map (and of a sub-map of a nil
`Components` pointer read through `len`) is handled per the source: the
schema count reads `merged.Components.Schemas`, which after a successful
multi-document merge is non-nil; on the single-document path a nil
`Components` would also panic there, modelled by `componentsSchemasLen`. -/
def componentsSchemasLen {α : Type} : Option (Components α) → Option Nat
  | none => none
  | some c => some (c.schemas.getD []).length

/-- See `componentsSchemasLen` above; this is the stats construction of
`GetStats` (merger.go lines 372-377), where `total_paths` evaluates
`len(merged.Paths.Map())` (panics on a nil `*Paths`) and `total_schemas`
evaluates `len(merged.Components.Schemas)` (panics on a nil
`*Components`); `none` models either panic. -/
def buildStats {α : Type} (merged : OpenAPI3T α) (fileCount : Nat) :
    Option (List (String × Nat)) :=
  match pathsMapLen merged.paths, componentsSchemasLen merged.components with
  | some np, some ns =>
    some
      [ ("total_files", fileCount),
        ("total_paths", np),
        ("total_schemas", ns),
        ("total_tags", merged.tags.length) ]
  | _, _ => none

/-- `GetStats()` from merger.go, parametric over per-file processing. -/
def GetStats {α : Type} (processF : String → Except String (OpenAPI3T α))
    (inputPaths : List String) :
    Option (Except String (Option (List (String × Nat)))) :=
  if inputPaths = [] then some (.error "no input paths provided")
  else
    match processAll processF inputPaths with
    | .error e => some (.error e)
    | .ok docs =>
      match mergeOpenAPI3 docs with
      | none => none
      | some (.error e) => some (.error ("error merging documents: " ++ e))
      | some (.ok merged) => some (.ok (buildStats merged inputPaths.length))

/-! ## Version detection

`detectSwaggerVersion` decodes the raw bytes into an untyped key-value map,
first with `yaml.Unmarshal`, then with `json.Unmarshal`, and inspects the
top-level keys `swagger` and `openapi`.  The decoders are external
libraries; `detectSwaggerVersion` below is parametric over them, and an
executable model of each is provided for concrete inputs. -/

/-- An untyped decoded value (`interface\x7b\x7d` in Go): the result shapes a
generic JSON/YAML decode can produce. -/
inductive JValue where
  | null : JValue
  | boolean (b : Bool) : JValue
  | num (lexeme : String) : JValue
  | str (s : String) : JValue
  | arr (xs : List JValue) : JValue
  | obj (fields : List (String × JValue)) : JValue

/-- `fmt.Sprintf("%v", v)` on a decoded value, as used by
`detectSwaggerVersion` to coerce the version value to a string.  Strings
print verbatim.  (Go formats a decoded number as a float64 and composites
with `map[...]` / `[...]` renderings; those exact renderings are not
modelled — no claim formats a non-string version value.) -/
def goFormatValue : JValue → String
  | .null => "<nil>"
  | .boolean b => if b then "true" else "false"
  | .num lexeme => lexeme
  | .str s => s
  | .arr _ => "[...]"
  | .obj _ => "map[...]"

/-- The whitespace characters of the JSON grammar. -/
def isWsChar (c : Char) : Bool :=
  c = ' ' || c = '\t' || c = '\n' || c = '\r'

/-- Whitespace skipping for the JSON parser. -/
def skipWs (cs : List Char) : List Char :=
  cs.dropWhile isWsChar

/-- The single-character JSON escape sequences, as escape-letter/result
pairs (`\uXXXX` is not modelled; no claim input uses it). -/
def escTable : List (Char × Char) :=
  [('n', '\n'), ('t', '\t'), ('r', '\r'), ('b', Char.ofNat 8), ('f', Char.ofNat 12),
   ('"', '"'), ('\\', '\\'), ('/', '/')]

/-- Resolve one escape letter through `escTable`. -/
def escChar (c : Char) : Option Char :=
  (escTable.find? (fun p => p.1 == c)).map Prod.snd

/-- Parse the body of a JSON string (the opening quote already consumed),
returning the string and the remaining input. -/
def parseStringBody : List Char → Option (String × List Char)
  | [] => none
  | '"' :: rest => some ("", rest)
  | '\\' :: c :: rest =>
    match escChar c with
    | none => none
    | some e =>
      match parseStringBody rest with
      | none => none
      | some (s, r) => some (String.mk (e :: s.data), r)
  | c :: rest =>
    if c = '\\' then none
    else
      match parseStringBody rest with
      | none => none
      | some (s, r) => some (String.mk (c :: s.data), r)

/-- Characters a JSON number lexeme may contain. -/
def isNumChar (c : Char) : Bool :=
  c.isDigit || c = '-' || c = '+' || c = '.' || c = 'e' || c = 'E'

mutual

/-- Recursive-descent JSON value parser (fuel-bounded; the fuel only
bounds nesting recursion and is chosen larger than the input length at the
call site). -/
def parseValue : Nat → List Char → Option (JValue × List Char)
  | 0, _ => none
  | Nat.succ fuel, cs =>
    match skipWs cs with
    | '{' :: rest =>
      (match skipWs rest with
       | '}' :: rest2 => some (JValue.obj [], rest2)
       | _ =>
         match parseMembers fuel rest with
         | none => none
         | some (fields, rest2) => some (JValue.obj fields, rest2))
    | '[' :: rest =>
      (match skipWs rest with
       | ']' :: rest2 => some (JValue.arr [], rest2)
       | _ =>
         match parseElems fuel rest with
         | none => none
         | some (xs, rest2) => some (JValue.arr xs, rest2))
    | '"' :: rest =>
      (match parseStringBody rest with
       | none => none
       | some (s, rest2) => some (JValue.str s, rest2))
    | 't' :: 'r' :: 'u' :: 'e' :: rest => some (JValue.boolean true, rest)
    | 'f' :: 'a' :: 'l' :: 's' :: 'e' :: rest => some (JValue.boolean false, rest)
    | 'n' :: 'u' :: 'l' :: 'l' :: rest => some (JValue.null, rest)
    | cs' =>
      let lexeme := cs'.takeWhile isNumChar
      if lexeme = [] then none
      else some (JValue.num (String.mk lexeme), cs'.drop lexeme.length)

/-- Parse `"key" : value (, "key" : value)* }` — one or more object
members and the closing brace. -/
def parseMembers : Nat → List Char → Option (List (String × JValue) × List Char)
  | 0, _ => none
  | Nat.succ fuel, cs =>
    match skipWs cs with
    | '"' :: rest =>
      (match parseStringBody rest with
       | none => none
       | some (key, rest2) =>
         match skipWs rest2 with
         | ':' :: rest3 =>
           (match parseValue fuel rest3 with
            | none => none
            | some (v, rest4) =>
              match skipWs rest4 with
              | ',' :: rest5 =>
                (match parseMembers fuel rest5 with
                 | none => none
                 | some (fields, r) => some ((key, v) :: fields, r))
              | '}' :: rest5 => some ([(key, v)], rest5)
              | _ => none)
         | _ => none)
    | _ => none

/-- Parse `value (, value)* ]` — one or more array elements and the
closing bracket. -/
def parseElems : Nat → List Char → Option (List JValue × List Char)
  | 0, _ => none
  | Nat.succ fuel, cs =>
    match parseValue fuel cs with
    | none => none
    | some (v, rest) =>
      match skipWs rest with
      | ',' :: rest2 =>
        (match parseElems fuel rest2 with
         | none => none
         | some (xs, r) => some (v :: xs, r))
      | ']' :: rest2 => some ([v], rest2)
      | _ => none

end

/-- Model of `json.Unmarshal(data, &obj)` for `obj : map[string]interface\x7b\x7d`:
the input must be a single JSON object followed by nothing but
whitespace. -/
def jsonUnmarshalMap (s : String) : Option (List (String × JValue)) :=
  match parseValue (s.length + 1) s.data with
  | some (JValue.obj fields, rest) => if skipWs rest = [] then some fields else none
  | _ => none

/-- Modelled from the behavior of `gopkg.in/yaml.v3` (an external library,
not part of this repository): YAML flow syntax is a superset of JSON, so
`yaml.Unmarshal` succeeds on every JSON object document and yields the
same key-value mapping as the JSON decode.  The model covers exactly those
JSON-syntax inputs; block-style YAML documents (which the library would
also accept) are outside the model and decode to `none`. -/
def yamlUnmarshalMapModel (s : String) : Option (List (String × JValue)) :=
  jsonUnmarshalMap s

/-- The key inspection shared by both decode branches of
`detectSwaggerVersion`: `swagger` is checked before `openapi`. -/
def detectFromObj (obj : List (String × JValue)) (isYAML : Bool) : Option SwaggerVersion :=
  match mapLookup obj "swagger" with
  | some v => some { version := goFormatValue v, isYAML := isYAML }
  | none =>
    match mapLookup obj "openapi" with
    | some v => some { version := goFormatValue v, isYAML := isYAML }
    | none => none

/-- `detectSwaggerVersion(data)` from merger.go, parametric over the two
untyped decoders: try YAML first, then JSON; fail when neither decode
yields a map containing `swagger` or `openapi`. -/
def detectSwaggerVersion (yamlDec jsonDec : String → Option (List (String × JValue)))
    (data : String) : Except String SwaggerVersion :=
  match (yamlDec data).bind (fun o => detectFromObj o true) with
  | some sv => .ok sv
  | none =>
    match (jsonDec data).bind (fun o => detectFromObj o false) with
    | some sv => .ok sv
    | none => .error "unable to detect swagger/openapi version"

/-- Outcome of the HTTP GET issued by `readDataFromPath`: a transport
error, or a response with its status code and body.  (A failure of
`io.ReadAll` on the body is not modelled; it is orthogonal to the claims.) -/
inductive HttpOutcome where
  | transportError (msg : String)
  | response (status : Nat) (body : String)
deriving DecidableEq, Repr

/-- `strings.HasPrefix` on the character sequence (structurally recursive,
unlike `String.startsWith`, so concrete instances evaluate). -/
def goHasPrefix (s pre : String) : Bool :=
  pre.data.isPrefixOf s.data

/-- `readDataFromPath(path)` from merger.go, parametric over the HTTP
client (`httpGet`) and the filesystem (`readFileF`).  A URL path is
accepted exactly when the response status is `http.StatusOK` (200). -/
def readDataFromPath (httpGet : String → HttpOutcome)
    (readFileF : String → Except String String) (path : String) : Except String String :=
  if goHasPrefix path "http://" || goHasPrefix path "https://" then
    match httpGet path with
    | .transportError e => .error ("failed to fetch URL " ++ path ++ ": " ++ e)
    | .response status body =>
      if status ≠ 200 then
        .error ("HTTP request failed with status " ++ toString status ++ " for URL " ++ path)
      else
        .ok body
  else
    match readFileF path with
    | .error e => .error ("failed to read file " ++ path ++ ": " ++ e)
    | .ok data => .ok data

/-! ## Helpers for stating the theorems -/

/-- The paths mapping of a document, with a nil pointer read as the empty
mapping (used only to state key/lookup/size properties; `pathsMapLen`
above keeps the nil/non-nil distinction where the source does). -/
def pathsListOf {α : Type} (d : OpenAPI3T α) : List (String × α) := d.paths.getD []

/-- The path keys a document declares. -/
def pathKeys {α : Type} (d : OpenAPI3T α) : List String := (pathsListOf d).map Prod.fst

/-- Look a path key up in a document's paths mapping. -/
def docPathLookup {α : Type} (d : OpenAPI3T α) (k : String) : Option α :=
  mapLookup (pathsListOf d) k

/-- The size of a document's paths mapping. -/
def pathCount {α : Type} (d : OpenAPI3T α) : Nat := (pathsListOf d).length

/-- Two documents declare disjoint sets of path keys. -/
def disjointPathKeys {α : Type} (d₁ d₂ : OpenAPI3T α) : Prop :=
  ∀ a, a ∈ pathKeys d₁ → a ∉ pathKeys d₂

/-- The set of distinct path keys declared across a document list. -/
def distinctPathKeys {α : Type} (docs : List (OpenAPI3T α)) : Finset String :=
  docs.foldr (fun d s => (pathKeys d).toFinset ∪ s) ∅

/-- A non-nil `Components` pointer whose five sub-maps are all nil. -/
def emptyComponents {α : Type} : Components α :=
  { schemas := none, responses := none, parameters := none
    requestBodies := none, headers := none }

/-- A concrete document with the given components pointer, paths and tags,
for witnesses. -/
def mkDoc {α : Type} (comps : Option (Components α)) (ps : Option (List (String × α)))
    (tags : List α) : OpenAPI3T α :=
  { openapi := "3.0.0"
    servers := []
    paths := ps
    components := comps
    tags := tags }

/-- The concrete JSON input of the detection claim:
`\x7b"swagger":"2.0","info":\x7b...\x7d\x7d`. -/
def detectJsonInputBytes : String :=
  "\x7b\"swagger\":\"2.0\",\"info\":\x7b\"title\":\"Test API\",\"version\":\"1.0.0\"\x7d\x7d"

/-- A concrete first document for the paths-merge witness (non-nil
components pointer, so the merge completes). -/
def sampleDocA : OpenAPI3T Nat := mkDoc (some emptyComponents) (some [("/a", 1), ("/c", 2)]) []

/-- A concrete second document for the paths-merge witness, colliding with
`sampleDocA` on `/c`. -/
def sampleDocB : OpenAPI3T Nat := mkDoc (some emptyComponents) (some [("/b", 3), ("/c", 4)]) []

/-! ## Theorems -/

/-- `mergeStep` panics (returns nothing) exactly when either side's
components pointer is nil — the unguarded dereferences at merger.go
lines 149 and 166. -/
theorem mergeStep_eq_none_iff {α : Type} (m doc : OpenAPI3T α) :
    mergeStep m doc = none ↔ m.components = none ∨ doc.components = none := by
  cases hp : doc.paths <;> cases hmc : m.components <;> cases hdc : doc.components <;>
    simp [mergeStep, hp, hmc, hdc]

/-- Full characterization of a non-panicking merge step. -/
theorem mergeStep_some_eq {α : Type} (m doc : OpenAPI3T α) (mc dc : Components α)
    (hmc : m.components = some mc) (hdc : doc.components = some dc) :
    mergeStep m doc = some
      { openapi := m.openapi
        servers := m.servers
        paths :=
          match doc.paths with
          | none => m.paths
          | some dps => some (mapSetAll (m.paths.getD []) dps)
        components := some
          { schemas := mergeComponentMap (some (mc.schemas.getD [])) dc.schemas
            responses := mergeComponentMap (some (mc.responses.getD [])) dc.responses
            parameters := mergeComponentMap (some (mc.parameters.getD [])) dc.parameters
            requestBodies :=
              mergeComponentMap (some (mc.requestBodies.getD [])) dc.requestBodies
            headers := mergeComponentMap (some (mc.headers.getD [])) dc.headers }
        tags := m.tags ++ doc.tags } := by
  cases hp : doc.paths <;> simp [mergeStep, hp, hmc, hdc]

/-- A step that produced a document had non-nil components pointers on
both sides, and the result's pointer is non-nil. -/
theorem mergeStep_some_components {α : Type} (m doc m' : OpenAPI3T α)
    (h : mergeStep m doc = some m') :
    (∃ mc, m.components = some mc) ∧ (∃ dc, doc.components = some dc) ∧
      m'.components ≠ none := by
  rcases hmc : m.components with _ | mc
  · rw [(mergeStep_eq_none_iff m doc).mpr (Or.inl hmc)] at h
    cases h
  rcases hdc : doc.components with _ | dc
  · rw [(mergeStep_eq_none_iff m doc).mpr (Or.inr hdc)] at h
    cases h
  refine ⟨⟨mc, rfl⟩, ⟨dc, rfl⟩, ?_⟩
  rw [mergeStep_some_eq m doc mc dc hmc hdc] at h
  cases h
  simp

/-- A step between documents with non-nil components pointers produces a
document. -/
theorem mergeStep_isSome {α : Type} (m doc : OpenAPI3T α)
    (hm : m.components ≠ none) (hd : doc.components ≠ none) :
    ∃ m', mergeStep m doc = some m' := by
  rcases hmc : m.components with _ | mc
  · exact absurd hmc hm
  rcases hdc : doc.components with _ | dc
  · exact absurd hdc hd
  exact ⟨_, mergeStep_some_eq m doc mc dc hmc hdc⟩

/-- Tags of a non-panicking merge step: plain concatenation. -/
theorem mergeStep_tags_of_some {α : Type} (m doc m' : OpenAPI3T α)
    (h : mergeStep m doc = some m') : m'.tags = m.tags ++ doc.tags := by
  rcases mergeStep_some_components m doc m' h with ⟨⟨mc, hmc⟩, ⟨dc, hdc⟩, _⟩
  rw [mergeStep_some_eq m doc mc dc hmc hdc] at h
  cases h
  rfl

/-- The merge loop succeeds on documents with non-nil components
pointers, and keeps the accumulator's pointer non-nil. -/
theorem mergeFold_isSome {α : Type} (rest : List (OpenAPI3T α)) (d : OpenAPI3T α)
    (hd : d.components ≠ none) (hrest : ∀ x ∈ rest, x.components ≠ none) :
    ∃ M, mergeFold rest d = some M ∧ M.components ≠ none := by
  induction rest generalizing d with
  | nil => exact ⟨d, rfl, hd⟩
  | cons x xs ih =>
    rcases mergeStep_isSome d x hd (hrest x (List.mem_cons_self x xs)) with ⟨d', hd'⟩
    rcases ih d' (mergeStep_some_components d x d' hd').2.2
      (fun y hy => hrest y (List.mem_cons_of_mem x hy)) with ⟨M, hM, hMc⟩
    exact ⟨M, by simp [mergeFold, hd', hM], hMc⟩

/-- Tags across a successful merge loop: concatenation over the whole
list. -/
theorem mergeFold_tags {α : Type} (rest : List (OpenAPI3T α)) (d M : OpenAPI3T α)
    (h : mergeFold rest d = some M) :
    M.tags = d.tags ++ (rest.map OpenAPI3T.tags).flatten := by
  induction rest generalizing d with
  | nil => cases h; simp
  | cons x xs ih =>
    unfold mergeFold at h
    cases hs : mergeStep d x <;> rw [hs] at h
    · cases h
    case some d' =>
      rw [ih d' h, mergeStep_tags_of_some d x d' hs]
      simp

/-- C6: merging a single-document sequence is a no-op fold: the result is
exactly that one input document (servers were already overridden during
normalization, so nothing changes, and neither the nil-paths nor the
nil-components initialization runs). -/
theorem mergeOpenAPI3_singleton {α : Type} (d : OpenAPI3T α) :
    mergeOpenAPI3 [d] = some (.ok d) := rfl

/-- C5: merging the empty document sequence fails with the empty-input
error (`"no documents to merge"`) and produces no document; merging any
non-empty sequence never fails with that (or any) error: it either
returns a merged document or panics on a nil components pointer, and a
panic is not a failure with the empty-input error. -/
theorem mergeOpenAPI3_empty_input {α : Type} :
    mergeOpenAPI3 ([] : List (OpenAPI3T α)) = some (.error "no documents to merge") ∧
    ∀ docs : List (OpenAPI3T α), docs ≠ [] → ∀ e : String,
      mergeOpenAPI3 docs ≠ some (.error e) := by
  refine ⟨rfl, ?_⟩
  intro docs h e hcontra
  cases docs with
  | nil => exact absurd rfl h
  | cons d rest =>
    rw [show mergeOpenAPI3 (d :: rest) = (mergeFold rest d).map Except.ok from rfl] at hcontra
    cases hf : mergeFold rest d <;> rw [hf] at hcontra <;> simp at hcontra

/-- Witness for `mergeOpenAPI3_empty_input` at a concrete one-document
list and the empty-input error message. -/
theorem mergeOpenAPI3_empty_input_witness :
    ([mkDoc (α := Nat) none none []] : List (OpenAPI3T Nat)) ≠ [] ∧
      mergeOpenAPI3 [mkDoc (α := Nat) none none []] ≠
        some (.error "no documents to merge") :=
  ⟨by simp, (mergeOpenAPI3_empty_input).2 [mkDoc none none []] (by simp)
    "no documents to merge"⟩

/-- C7: whenever the merge returns a document, its tags are the
concatenation of the input documents' tag sequences in input order,
duplicates retained, earlier documents first; in particular two documents
with non-nil components pointers (which the loop dereferences unguarded)
and tag sequences `[A,B]` and `[B,C]` merge to `[A,B,B,C]`. -/
theorem mergeOpenAPI3_tags_concat {α : Type} :
    (∀ (docs : List (OpenAPI3T α)) (M : OpenAPI3T α), mergeOpenAPI3 docs = some (.ok M) →
      M.tags = (docs.map OpenAPI3T.tags).flatten) ∧
    (∀ (d₁ d₂ : OpenAPI3T α) (A B C : α), d₁.components ≠ none → d₂.components ≠ none →
      d₁.tags = [A, B] → d₂.tags = [B, C] →
      ∃ M, mergeOpenAPI3 [d₁, d₂] = some (.ok M) ∧ M.tags = [A, B, B, C]) := by
  constructor
  · intro docs M h
    cases docs with
    | nil => simp [mergeOpenAPI3] at h
    | cons d rest =>
      rw [show mergeOpenAPI3 (d :: rest) = (mergeFold rest d).map Except.ok from rfl] at h
      cases hf : mergeFold rest d <;> rw [hf] at h
      · cases h
      · cases h
        rw [mergeFold_tags rest d _ hf]
        simp
  · intro d₁ d₂ A B C h1c h2c h1 h2
    rcases mergeStep_isSome d₁ d₂ h1c h2c with ⟨m', hm'⟩
    refine ⟨m', ?_, ?_⟩
    · show (mergeFold [d₂] d₁).map Except.ok = some (.ok m')
      simp [mergeFold, hm']
    · rw [mergeStep_tags_of_some d₁ d₂ m' hm', h1, h2]
      rfl

/-- Witness for `mergeOpenAPI3_tags_concat` at concrete documents with
non-nil components and tag sequences `[0,1]` and `[1,2]`. -/
theorem mergeOpenAPI3_tags_concat_witness :
    ∃ M, mergeOpenAPI3 [mkDoc (α := Nat) (some emptyComponents) none [0, 1],
        mkDoc (α := Nat) (some emptyComponents) none [1, 2]] = some (.ok M) ∧
      M.tags = [0, 1, 1, 2] :=
  (mergeOpenAPI3_tags_concat).2 (mkDoc (some emptyComponents) none [0, 1])
    (mkDoc (some emptyComponents) none [1, 2]) 0 1 2 (by simp [mkDoc])
    (by simp [mkDoc]) rfl rfl

/-- C3: whenever `processSwaggerFile` succeeds, the produced document has
`openapi` exactly `"3.0.1"` and its server list equal, element for element
and in order, to the configured list — for every read/detect/convert
outcome, so for OpenAPI-3 and Swagger-2 inputs, YAML and JSON alike; the
source document's own servers never survive. -/
theorem processSwaggerFile_canonicalizes {α : Type} :
    ∀ (readF : String → Except String String)
      (detectF : String → Except String SwaggerVersion)
      (convertF : String → SwaggerVersion → Except String (OpenAPI3T α))
      (configServers : List Server) (filePath : String) (d : OpenAPI3T α),
      processSwaggerFile readF detectF convertF configServers filePath = .ok d →
      d.openapi = "3.0.1" ∧ d.servers = configServers := by
  intro readF detectF convertF configServers filePath d h
  unfold processSwaggerFile at h
  split at h
  · cases h
  · split at h
    · cases h
    · split at h
      · cases h
      · cases h
        refine ⟨rfl, ?_⟩
        show configServers.map (fun s => { url := s.url, description := s.description }) =
          configServers
        have h4 : (fun s : Server => ({ url := s.url, description := s.description } : Server)) =
            fun s => s := rfl
        rw [h4]
        exact List.map_id' configServers

/-- Witness for `processSwaggerFile_canonicalizes` at a concrete
successful pipeline. -/
theorem processSwaggerFile_canonicalizes_witness :
    ∃ d : OpenAPI3T Nat,
      processSwaggerFile (fun _ => .ok "data")
        (fun _ => .ok { version := "2.0", isYAML := false })
        (fun _ _ => .ok (mkDoc none none [])) DefaultServers "api.yaml" = .ok d ∧
      d.openapi = "3.0.1" ∧ d.servers = DefaultServers := by
  refine ⟨_, rfl, ?_⟩
  exact processSwaggerFile_canonicalizes (fun _ => .ok "data")
    (fun _ => .ok { version := "2.0", isYAML := false })
    (fun _ _ => .ok (mkDoc none none [])) DefaultServers "api.yaml" _ rfl

/-- If some input fails to process, the processing loop fails. -/
theorem processAll_error_of_mem {α : Type} (processF : String → Except String (OpenAPI3T α))
    (ps : List String) (p : String) (hp : p ∈ ps) (e : String) (he : processF p = .error e) :
    ∃ e', processAll processF ps = .error e' := by
  induction ps with
  | nil => cases hp
  | cons q qs ih =>
    cases hq : processF q with
    | error e' => exact ⟨"error processing " ++ q ++ ": " ++ e', by simp [processAll, hq]⟩
    | ok d =>
      rcases List.mem_cons.mp hp with h | h
      · subst h; rw [he] at hq; cases hq
      · rcases ih h with ⟨e', he'⟩
        exact ⟨e', by simp [processAll, hq, he']⟩

/-- If the processing loop succeeds, every input processed successfully. -/
theorem processAll_ok_mem {α : Type} (processF : String → Except String (OpenAPI3T α))
    (ps : List String) (ds : List (OpenAPI3T α)) (h : processAll processF ps = .ok ds) :
    ∀ p ∈ ps, ∃ d, processF p = .ok d := by
  induction ps generalizing ds with
  | nil => intro p hp; cases hp
  | cons q qs ih =>
    intro p hp
    unfold processAll at h
    split at h
    · cases h
    next d hq =>
      split at h
      · cases h
      next ds' hqs =>
        rcases List.mem_cons.mp hp with hh | hh
        · subst hh; exact ⟨d, hq⟩
        · exact ih _ hqs p hh

/-- C4: if processing any single input fails, `Merge` returns an error and
attempts no write; conversely a write is attempted only after every input
processed and the merge and the marshalling succeeded, and it is the
single write of the merged output to the output path. -/
theorem merge_all_or_nothing {α : Type} :
    ∀ (processF : String → Except String (OpenAPI3T α))
      (marshalF : OpenAPI3T α → Except String String)
      (writeF : String → String → Except String Unit)
      (inputPaths : List String) (outputPath : String),
      ((∃ p ∈ inputPaths, ∃ e, processF p = .error e) →
        (∃ e, (MergeGo processF marshalF writeF inputPaths outputPath).1 =
          some (.error e)) ∧
        (MergeGo processF marshalF writeF inputPaths outputPath).2 = []) ∧
      ((MergeGo processF marshalF writeF inputPaths outputPath).2 ≠ [] →
        (∀ p ∈ inputPaths, ∃ d, processF p = .ok d) ∧
        ∃ docs M out, processAll processF inputPaths = .ok docs ∧
          mergeOpenAPI3 docs = some (.ok M) ∧ marshalF M = .ok out ∧
          (MergeGo processF marshalF writeF inputPaths outputPath).2 = [(outputPath, out)]) := by
  intro processF marshalF writeF inputPaths outputPath
  by_cases h1 : inputPaths = []
  · subst h1
    have hR : MergeGo processF marshalF writeF [] outputPath =
        (some (.error "no input paths provided"), []) := by simp [MergeGo]
    rw [hR]
    exact ⟨fun _ => ⟨⟨_, rfl⟩, rfl⟩, fun h => absurd rfl h⟩
  · by_cases h2 : outputPath = ""
    · have hR : MergeGo processF marshalF writeF inputPaths outputPath =
          (some (.error "output path is required"), []) := by simp [MergeGo, h1, h2]
      rw [hR]
      exact ⟨fun _ => ⟨⟨_, rfl⟩, rfl⟩, fun h => absurd rfl h⟩
    · cases hPA : processAll processF inputPaths with
      | error e =>
        have hR : MergeGo processF marshalF writeF inputPaths outputPath =
            (some (.error e), []) := by
          simp [MergeGo, h1, h2, hPA]
        rw [hR]
        exact ⟨fun _ => ⟨⟨_, rfl⟩, rfl⟩, fun h => absurd rfl h⟩
      | ok docs =>
        have hnofail : (∃ p ∈ inputPaths, ∃ e, processF p = .error e) → False := by
          rintro ⟨p, hp, e, he⟩
          rcases processAll_error_of_mem processF inputPaths p hp e he with ⟨e', he'⟩
          rw [hPA] at he'
          cases he'
        refine ⟨fun h => absurd h hnofail, ?_⟩
        cases hM : mergeOpenAPI3 docs with
        | none =>
          have hR : MergeGo processF marshalF writeF inputPaths outputPath = (none, []) := by
            simp [MergeGo, h1, h2, hPA, hM]
          rw [hR]
          exact fun h => absurd rfl h
        | some exc =>
          cases exc with
          | error e =>
            have hR : MergeGo processF marshalF writeF inputPaths outputPath =
                (some (.error ("error merging documents: " ++ e)), []) := by
              simp [MergeGo, h1, h2, hPA, hM]
            rw [hR]
            exact fun h => absurd rfl h
          | ok M =>
            cases hMar : marshalF M with
            | error e =>
              have hR : MergeGo processF marshalF writeF inputPaths outputPath =
                  (some (.error ("error marshaling to YAML: " ++ e)), []) := by
                simp [MergeGo, h1, h2, hPA, hM, hMar]
              rw [hR]
              exact fun h => absurd rfl h
            | ok out =>
              cases hW : writeF outputPath out with
              | error e =>
                have hR : MergeGo processF marshalF writeF inputPaths outputPath =
                    (some (.error ("error writing file: " ++ e)), [(outputPath, out)]) := by
                  simp [MergeGo, h1, h2, hPA, hM, hMar, hW]
                rw [hR]
                exact fun _ => ⟨processAll_ok_mem processF inputPaths docs hPA,
                  docs, M, out, rfl, hM, hMar, rfl⟩
              | ok uu =>
                have hR : MergeGo processF marshalF writeF inputPaths outputPath =
                    (some (.ok ()), [(outputPath, out)]) := by
                  simp [MergeGo, h1, h2, hPA, hM, hMar, hW]
                rw [hR]
                exact fun _ => ⟨processAll_ok_mem processF inputPaths docs hPA,
                  docs, M, out, rfl, hM, hMar, rfl⟩

/-- Witness for `merge_all_or_nothing`: one failing input of two, the
result is an error with an empty write trace. -/
theorem merge_all_or_nothing_witness :
    (∃ p ∈ ["good.yaml", "bad.yaml"], ∃ e,
      (fun q => if q = "bad.yaml" then (.error "boom" : Except String (OpenAPI3T Nat))
                else .ok (mkDoc none none [])) p = .error e) ∧
    (∃ e, (MergeGo (fun q => if q = "bad.yaml" then (.error "boom" : Except String (OpenAPI3T Nat))
                    else .ok (mkDoc none none []))
        (fun _ => .ok "out") (fun _ _ => .ok ()) ["good.yaml", "bad.yaml"] "merged.yaml").1 =
        some (.error e)) ∧
    (MergeGo (fun q => if q = "bad.yaml" then (.error "boom" : Except String (OpenAPI3T Nat))
        else .ok (mkDoc none none []))
      (fun _ => .ok "out") (fun _ _ => .ok ()) ["good.yaml", "bad.yaml"] "merged.yaml").2 = [] := by
  refine ⟨⟨"bad.yaml", by simp, "boom", by simp⟩, ?_⟩
  have h := (merge_all_or_nothing
    (fun q => if q = "bad.yaml" then (.error "boom" : Except String (OpenAPI3T Nat))
      else .ok (mkDoc none none []))
    (fun _ => .ok "out") (fun _ _ => .ok ()) ["good.yaml", "bad.yaml"] "merged.yaml").1
    ⟨"bad.yaml", by simp, "boom", by simp⟩
  exact h

/-- C8 (amended): `New` substitutes the fixed default four-entry server
list (development, test, staging, production placeholders) exactly when
the configured list is unset (a nil slice); any non-nil supplied list —
including an empty one — is kept unchanged. -/
theorem New_servers_spec :
    (∀ c : Config, c.servers = none → (New c).config.servers = some DefaultServers) ∧
    (∀ (c : Config) (l : List Server), c.servers = some l → (New c).config.servers = some l) ∧
    DefaultServers =
      [ { url := "https://api-dev.domain.com", description := "Development Environment" },
        { url := "https://api-test.domain.com", description := "Test Environment" },
        { url := "https://api-stg.domain.com", description := "Staging Environment" },
        { url := "https://api.domain.com", description := "Production Environment" } ] := by
  refine ⟨?_, ?_, rfl⟩
  · intro c hc
    unfold New
    rw [hc]
  · intro c l hc
    unfold New
    rw [hc]
    exact hc

/-- Witness for `New_servers_spec` at concrete configurations. -/
theorem New_servers_spec_witness :
    (New { inputPaths := ["a.yaml"], outputPath := "o.yaml",
           servers := none }).config.servers = some DefaultServers ∧
    (New { inputPaths := ["a.yaml"], outputPath := "o.yaml",
           servers := some [{ url := "https://x", description := "D" }] }).config.servers =
      some [{ url := "https://x", description := "D" }] :=
  ⟨(New_servers_spec).1 _ rfl, (New_servers_spec).2.1 _ _ rfl⟩

/-- Counterexample to C8 as stated: an empty but non-nil configured server
list is kept as the empty list, not replaced by the four-entry default. -/
theorem New_empty_list_not_defaulted :
    (New { inputPaths := ["a.yaml"], outputPath := "out.yaml",
           servers := some [] }).config.servers = some [] ∧
    (New { inputPaths := ["a.yaml"], outputPath := "out.yaml",
           servers := some [] }).config.servers ≠ some DefaultServers := by
  exact ⟨rfl, by decide⟩

/-- C9 (amended): for URL locators the fetch returns the body exactly when
the response status is 200 (`http.StatusOK`); any other status — including
other 2xx codes — or a transport error yields a fetch error naming the
locator. -/
theorem readDataFromPath_http_spec :
    ∀ (httpGet : String → HttpOutcome) (readFileF : String → Except String String)
      (path : String),
      (goHasPrefix path "http://" = true ∨ goHasPrefix path "https://" = true) →
      (∀ status body, httpGet path = .response status body →
        ((readDataFromPath httpGet readFileF path = .ok body) ↔ status = 200) ∧
        (status ≠ 200 → readDataFromPath httpGet readFileF path =
          .error ("HTTP request failed with status " ++ toString status ++ " for URL " ++
            path))) ∧
      (∀ e, httpGet path = .transportError e →
        readDataFromPath httpGet readFileF path =
          .error ("failed to fetch URL " ++ path ++ ": " ++ e)) := by
  intro httpGet readFileF path hurl
  have hcond : (goHasPrefix path "http://" || goHasPrefix path "https://") = true := by
    rcases hurl with h | h <;> simp [h]
  constructor
  · intro status body hresp
    by_cases hs : status = 200
    · subst hs
      have hred : readDataFromPath httpGet readFileF path = .ok body := by
        simp [readDataFromPath, hcond, hresp]
      refine ⟨by simp [hred], fun h => absurd rfl h⟩
    · have hred : readDataFromPath httpGet readFileF path =
          .error ("HTTP request failed with status " ++ toString status ++ " for URL " ++
            path) := by
        simp [readDataFromPath, hcond, hresp, hs]
      refine ⟨⟨fun hok => ?_, fun h => absurd h hs⟩, fun _ => hred⟩
      rw [hred] at hok
      cases hok
  · intro e he
    simp [readDataFromPath, hcond, he]

/-- Witness for `readDataFromPath_http_spec` at a concrete URL and a 200
response. -/
theorem readDataFromPath_http_spec_witness :
    (goHasPrefix "http://example.com/a.yaml" "http://" = true ∨
      goHasPrefix "http://example.com/a.yaml" "https://" = true) ∧
    (readDataFromPath (fun _ => .response 200 "payload") (fun _ => .error "unused")
        "http://example.com/a.yaml" = .ok "payload") :=
  ⟨Or.inl (by decide),
    ((readDataFromPath_http_spec (fun _ => .response 200 "payload") (fun _ => .error "unused")
      "http://example.com/a.yaml" (Or.inl (by decide))).1 200 "payload" rfl).1.mpr rfl⟩

/-- Counterexample to C9 as stated: a 201 response has a 2xx status but is
rejected with the status error rather than the body being returned. -/
theorem readDataFromPath_status_201_rejected :
    readDataFromPath (fun _ => .response 201 "payload") (fun _ => .error "unused")
        "http://example.com/spec.yaml" =
      .error "HTTP request failed with status 201 for URL http://example.com/spec.yaml" ∧
    readDataFromPath (fun _ => .response 201 "payload") (fun _ => .error "unused")
        "http://example.com/spec.yaml" ≠ .ok "payload" := by
  exact ⟨by decide, by decide⟩

/-- C10: a one-document sequence is returned by `mergeOpenAPI3` with nil
paths and a nil components pointer untouched (initialization runs only for
the second and later documents, so the singleton merge itself cannot
panic), and `GetStats` computes `total_paths` through
`merged.Paths.Map()` with no nil guard, so a single input whose canonical
document has a nil paths mapping makes the stats construction dereference
a nil pointer (the inner `none`) instead of returning an error or a zero
count. -/
theorem getStats_nil_paths_dereference {α : Type} :
    ∀ (d : OpenAPI3T α) (inPath : String), d.paths = none →
      mergeOpenAPI3 [d] = some (.ok d) ∧
      GetStats (fun _ => .ok d) [inPath] = some (.ok none) := by
  intro d inPath hp
  refine ⟨rfl, ?_⟩
  simp [GetStats, processAll, mergeOpenAPI3, mergeFold, buildStats, pathsMapLen, hp]

/-- Witness for `getStats_nil_paths_dereference` at a concrete document
with a nil paths mapping (and, as `LoadFromData` also leaves it for a
document with no components section, a nil components pointer). -/
theorem getStats_nil_paths_dereference_witness :
    (mkDoc (α := Nat) none none []).paths = none ∧
      mergeOpenAPI3 [mkDoc (α := Nat) none none []] = some (.ok (mkDoc (α := Nat) none none [])) ∧
      GetStats (fun _ => .ok (mkDoc (α := Nat) none none [])) ["api.yaml"] = some (.ok none) :=
  ⟨rfl, getStats_nil_paths_dereference (mkDoc none none []) "api.yaml" rfl⟩

/-- The key inspection tags its result with the encoding it was invoked
for. -/
theorem detectFromObj_isYAML (obj : List (String × JValue)) (b : Bool) (sv : SwaggerVersion)
    (h : detectFromObj obj b = some sv) : sv.isYAML = b := by
  unfold detectFromObj at h
  split at h
  · cases h; rfl
  · split at h
    · cases h; rfl
    · cases h

/-- C1 (amended): on the concrete JSON input bytes the detector returns
version `"2.0"` with encoding YAML (`IsYAML = true`), because the YAML
decoder is tried first and accepts JSON flow syntax.  In general, whenever
the YAML decode attempt fails or finds neither the `swagger` nor the
`openapi` key, a JSON decode is attempted and a recognized key yields the
detected version with encoding JSON (`IsYAML = false`). -/
theorem detect_version_encoding :
    detectSwaggerVersion yamlUnmarshalMapModel jsonUnmarshalMap detectJsonInputBytes =
      .ok { version := "2.0", isYAML := true } ∧
    ∀ (yamlDec jsonDec : String → Option (List (String × JValue))) (data : String),
      (yamlDec data = none ∨ ∃ o, yamlDec data = some o ∧ detectFromObj o true = none) →
      ∀ (obj : List (String × JValue)) (sv : SwaggerVersion),
        jsonDec data = some obj → detectFromObj obj false = some sv →
        detectSwaggerVersion yamlDec jsonDec data = .ok sv ∧ sv.isYAML = false := by
  constructor
  · rfl
  · intro yamlDec jsonDec data hyaml obj sv hjson hobj
    refine ⟨?_, detectFromObj_isYAML obj false sv hobj⟩
    unfold detectSwaggerVersion
    have hy : (yamlDec data).bind (fun o => detectFromObj o true) = none := by
      rcases hyaml with h | ⟨o, ho, hno⟩
      · rw [h]; rfl
      · rw [ho]; simpa using hno
    rw [hy, hjson]
    simp [Option.bind, hobj]

/-- Witness for `detect_version_encoding`: a failing YAML decode and a
JSON decode exposing a `swagger` key yield encoding JSON. -/
theorem detect_version_encoding_witness :
    detectSwaggerVersion (fun _ => none) (fun _ => some [("swagger", JValue.str "2.0")])
      "bytes" = .ok { version := "2.0", isYAML := false } ∧
    ({ version := "2.0", isYAML := false } : SwaggerVersion).isYAML = false :=
  (detect_version_encoding).2 (fun _ => none)
    (fun _ => some [("swagger", JValue.str "2.0")]) "bytes" (Or.inl rfl)
    [("swagger", JValue.str "2.0")] { version := "2.0", isYAML := false } rfl rfl

/-- Counterexample to C1 as stated: on the concrete JSON input bytes the
detector reports encoding YAML (`IsYAML = true`), not JSON — the YAML
decoder runs first and accepts JSON flow syntax, so the JSON branch is
never reached on such inputs. -/
theorem detect_json_input_not_json_encoding :
    detectSwaggerVersion yamlUnmarshalMapModel jsonUnmarshalMap detectJsonInputBytes ≠
      .ok { version := "2.0", isYAML := false } := by
  intro h
  have h1 : detectSwaggerVersion yamlUnmarshalMapModel jsonUnmarshalMap detectJsonInputBytes =
      .ok { version := "2.0", isYAML := true } := rfl
  rw [h1] at h
  exact Bool.noConfusion (congrArg SwaggerVersion.isYAML (Except.ok.inj h))

/-! ### Association-list map lemmas for the paths merge -/

/-- Replacing the entries of key `k` leaves the key list unchanged. -/
theorem map_fst_replace {α : Type} (m : List (String × α)) (k : String) (v : α) :
    (m.map (fun p => if p.1 = k then (k, v) else p)).map Prod.fst = m.map Prod.fst := by
  induction m with
  | nil => rfl
  | cons p rest ih =>
    by_cases hp : p.1 = k <;> simp [hp, ih]

/-- Keys after a map assignment. -/
theorem map_fst_mapSet {α : Type} (m : List (String × α)) (k : String) (v : α) :
    (mapSet m k v).map Prod.fst =
      if k ∈ m.map Prod.fst then m.map Prod.fst else m.map Prod.fst ++ [k] := by
  unfold mapSet
  by_cases h : k ∈ m.map Prod.fst
  · rw [if_pos h, if_pos h]
    exact map_fst_replace m k v
  · rw [if_neg h, if_neg h]
    simp

/-- Key membership after a map assignment. -/
theorem mem_map_fst_mapSet {α : Type} (m : List (String × α)) (k : String) (v : α)
    (a : String) :
    a ∈ (mapSet m k v).map Prod.fst ↔ a ∈ m.map Prod.fst ∨ a = k := by
  rw [map_fst_mapSet]
  by_cases h : k ∈ m.map Prod.fst
  · rw [if_pos h]
    constructor
    · exact Or.inl
    · rintro (h1 | rfl)
      · exact h1
      · exact h
  · rw [if_neg h]
    simp

/-- A map assignment preserves duplicate-freeness of the keys. -/
theorem nodup_map_fst_mapSet {α : Type} (m : List (String × α)) (k : String) (v : α)
    (h : (m.map Prod.fst).Nodup) : ((mapSet m k v).map Prod.fst).Nodup := by
  rw [map_fst_mapSet]
  by_cases hk : k ∈ m.map Prod.fst
  · rwa [if_pos hk]
  · rw [if_neg hk]
    simp [List.nodup_append, h, hk]

/-- Looking up in a map where key `k` was replaced by `v`. -/
theorem mapLookup_replace {α : Type} (m : List (String × α)) (k : String) (v : α)
    (h : k ∈ m.map Prod.fst) :
    mapLookup (m.map (fun p => if p.1 = k then (k, v) else p)) k = some v := by
  induction m with
  | nil => cases h
  | cons p rest ih =>
    by_cases hp : p.1 = k
    · simp [mapLookup, hp]
    · rw [List.map_cons, List.mem_cons] at h
      rcases h with h | h
      · exact absurd h.symm hp
      · simp [mapLookup, hp, ih h]

/-- Looking up a freshly appended key. -/
theorem mapLookup_append_self {α : Type} (m : List (String × α)) (k : String) (v : α)
    (h : k ∉ m.map Prod.fst) : mapLookup (m ++ [(k, v)]) k = some v := by
  induction m with
  | nil => simp [mapLookup]
  | cons p rest ih =>
    rw [List.map_cons, List.mem_cons] at h
    push_neg at h
    simp [mapLookup, Ne.symm h.1, ih h.2]

/-- Looking up the assigned key yields the assigned value. -/
theorem mapLookup_mapSet_self {α : Type} (m : List (String × α)) (k : String) (v : α) :
    mapLookup (mapSet m k v) k = some v := by
  unfold mapSet
  by_cases h : k ∈ m.map Prod.fst
  · rw [if_pos h]
    exact mapLookup_replace m k v h
  · rw [if_neg h]
    exact mapLookup_append_self m k v h

/-- Replacement of another key does not change a lookup. -/
theorem mapLookup_replace_ne {α : Type} (m : List (String × α)) (k : String) (v : α)
    (a : String) (ha : a ≠ k) :
    mapLookup (m.map (fun p => if p.1 = k then (k, v) else p)) a = mapLookup m a := by
  induction m with
  | nil => rfl
  | cons p rest ih =>
    by_cases hp : p.1 = k
    · have hka : ¬(k = a) := fun hh => ha hh.symm
      have hpa : ¬(p.1 = a) := by rw [hp]; exact hka
      simp [mapLookup, hp, hka, hpa, ih]
    · by_cases hpa : p.1 = a <;> simp [mapLookup, hp, hpa, ha, ih]

/-- Appending another key does not change a lookup. -/
theorem mapLookup_append_ne {α : Type} (m : List (String × α)) (k : String) (v : α)
    (a : String) (ha : a ≠ k) : mapLookup (m ++ [(k, v)]) a = mapLookup m a := by
  induction m with
  | nil => simp [mapLookup, show ¬(k = a) from fun hh => ha hh.symm]
  | cons p rest ih =>
    by_cases hpa : p.1 = a <;> simp [mapLookup, hpa, ih]

/-- Assigning another key does not change a lookup. -/
theorem mapLookup_mapSet_ne {α : Type} (m : List (String × α)) (k : String) (v : α)
    (a : String) (ha : a ≠ k) : mapLookup (mapSet m k v) a = mapLookup m a := by
  unfold mapSet
  by_cases h : k ∈ m.map Prod.fst
  · rw [if_pos h]
    exact mapLookup_replace_ne m k v a ha
  · rw [if_neg h]
    exact mapLookup_append_ne m k v a ha

/-- Key membership after overlaying a whole map. -/
theorem mem_map_fst_mapSetAll {α : Type} (acc es : List (String × α)) (a : String) :
    a ∈ (mapSetAll acc es).map Prod.fst ↔
      a ∈ acc.map Prod.fst ∨ a ∈ es.map Prod.fst := by
  induction es generalizing acc with
  | nil => simp [mapSetAll]
  | cons p rest ih =>
    rw [show mapSetAll acc (p :: rest) = mapSetAll (mapSet acc p.1 p.2) rest from rfl, ih,
      mem_map_fst_mapSet]
    simp only [List.map_cons, List.mem_cons]
    tauto

/-- Overlaying preserves duplicate-freeness of the accumulator's keys. -/
theorem nodup_map_fst_mapSetAll {α : Type} (acc es : List (String × α))
    (h : (acc.map Prod.fst).Nodup) : ((mapSetAll acc es).map Prod.fst).Nodup := by
  induction es generalizing acc with
  | nil => exact h
  | cons p rest ih => exact ih _ (nodup_map_fst_mapSet acc p.1 p.2 h)

/-- Overlaying a map that does not contain key `a` leaves the lookup of
`a` unchanged. -/
theorem mapLookup_mapSetAll_not_mem {α : Type} (acc es : List (String × α)) (a : String)
    (ha : a ∉ es.map Prod.fst) : mapLookup (mapSetAll acc es) a = mapLookup acc a := by
  induction es generalizing acc with
  | nil => rfl
  | cons p rest ih =>
    rw [List.map_cons, List.mem_cons] at ha
    push_neg at ha
    rw [show mapSetAll acc (p :: rest) = mapSetAll (mapSet acc p.1 p.2) rest from rfl,
      ih _ ha.2, mapLookup_mapSet_ne _ _ _ _ ha.1]

/-- Overlaying a duplicate-free map that contains key `a` makes the
lookup of `a` the incoming map's value. -/
theorem mapLookup_mapSetAll_mem {α : Type} (acc es : List (String × α)) (a : String)
    (hnd : (es.map Prod.fst).Nodup) (ha : a ∈ es.map Prod.fst) :
    mapLookup (mapSetAll acc es) a = mapLookup es a := by
  induction es generalizing acc with
  | nil => cases ha
  | cons p rest ih =>
    rw [show mapSetAll acc (p :: rest) = mapSetAll (mapSet acc p.1 p.2) rest from rfl]
    rw [List.map_cons] at hnd
    by_cases hap : a = p.1
    · have hrest : a ∉ rest.map Prod.fst := by
        rw [hap]
        exact (List.nodup_cons.mp hnd).1
      rw [mapLookup_mapSetAll_not_mem _ _ _ hrest, hap, mapLookup_mapSet_self]
      simp [mapLookup]
    · have harest : a ∈ rest.map Prod.fst := by
        rw [List.map_cons, List.mem_cons] at ha
        tauto
      rw [ih _ (List.nodup_cons.mp hnd).2 harest]
      simp [mapLookup, show ¬(p.1 = a) from fun hh => hap hh.symm]

/-! ### Document-level path lemmas (for non-panicking steps) -/

/-- Paths of a non-panicking merge step whose incoming document has nil
paths. -/
theorem pathsListOf_mergeStep_none {α : Type} (m doc m' : OpenAPI3T α)
    (h : mergeStep m doc = some m') (hp : doc.paths = none) :
    pathsListOf m' = pathsListOf m := by
  rcases mergeStep_some_components m doc m' h with ⟨⟨mc, hmc⟩, ⟨dc, hdc⟩, _⟩
  rw [mergeStep_some_eq m doc mc dc hmc hdc] at h
  cases h
  simp [pathsListOf, hp]

/-- Paths of a non-panicking merge step whose incoming document has
paths. -/
theorem pathsListOf_mergeStep_some {α : Type} (m doc m' : OpenAPI3T α)
    (dps : List (String × α)) (h : mergeStep m doc = some m') (hp : doc.paths = some dps) :
    pathsListOf m' = mapSetAll (pathsListOf m) dps := by
  rcases mergeStep_some_components m doc m' h with ⟨⟨mc, hmc⟩, ⟨dc, hdc⟩, _⟩
  rw [mergeStep_some_eq m doc mc dc hmc hdc] at h
  cases h
  simp [pathsListOf, hp]

/-- Key membership after a non-panicking merge step. -/
theorem mem_pathKeys_mergeStep {α : Type} (m doc m' : OpenAPI3T α)
    (h : mergeStep m doc = some m') (a : String) :
    a ∈ pathKeys m' ↔ a ∈ pathKeys m ∨ a ∈ pathKeys doc := by
  cases hp : doc.paths with
  | none =>
    rw [pathKeys, pathsListOf_mergeStep_none m doc m' h hp]
    simp [pathKeys, pathsListOf, hp]
  | some dps =>
    rw [pathKeys, pathsListOf_mergeStep_some m doc m' dps h hp, mem_map_fst_mapSetAll]
    simp [pathKeys, pathsListOf, hp]

/-- A non-panicking merge step preserves duplicate-free path keys. -/
theorem nodup_pathKeys_mergeStep {α : Type} (m doc m' : OpenAPI3T α)
    (h : mergeStep m doc = some m') (hm : (pathKeys m).Nodup) : (pathKeys m').Nodup := by
  cases hp : doc.paths with
  | none => rw [pathKeys, pathsListOf_mergeStep_none m doc m' h hp]; exact hm
  | some dps =>
    rw [pathKeys, pathsListOf_mergeStep_some m doc m' dps h hp]
    exact nodup_map_fst_mapSetAll _ _ hm

/-- A non-panicking merge step with a document not declaring key `a`
leaves the lookup of `a` unchanged. -/
theorem docPathLookup_mergeStep_not_mem {α : Type} (m doc m' : OpenAPI3T α)
    (h : mergeStep m doc = some m') (a : String) (ha : a ∉ pathKeys doc) :
    docPathLookup m' a = docPathLookup m a := by
  cases hp : doc.paths with
  | none => rw [docPathLookup, pathsListOf_mergeStep_none m doc m' h hp]; rfl
  | some dps =>
    have hdoc : pathsListOf doc = dps := by simp [pathsListOf, hp]
    rw [docPathLookup, pathsListOf_mergeStep_some m doc m' dps h hp]
    rw [pathKeys, hdoc] at ha
    exact mapLookup_mapSetAll_not_mem _ _ _ ha

/-- A non-panicking merge step with a duplicate-free document declaring
key `a` stores that document's value. -/
theorem docPathLookup_mergeStep_mem {α : Type} (m doc m' : OpenAPI3T α)
    (h : mergeStep m doc = some m') (a : String) (hnd : (pathKeys doc).Nodup)
    (ha : a ∈ pathKeys doc) : docPathLookup m' a = docPathLookup doc a := by
  cases hp : doc.paths with
  | none =>
    rw [pathKeys, pathsListOf, hp] at ha
    cases ha
  | some dps =>
    have hdoc : pathsListOf doc = dps := by simp [pathsListOf, hp]
    rw [docPathLookup, pathsListOf_mergeStep_some m doc m' dps h hp, docPathLookup, hdoc]
    rw [pathKeys, hdoc] at hnd ha
    exact mapLookup_mapSetAll_mem _ _ _ hnd ha

/-- Key membership across a successful merge loop. -/
theorem mem_pathKeys_mergeFold {α : Type} (rest : List (OpenAPI3T α)) (d M : OpenAPI3T α)
    (h : mergeFold rest d = some M) (a : String) :
    a ∈ pathKeys M ↔ a ∈ pathKeys d ∨ ∃ d' ∈ rest, a ∈ pathKeys d' := by
  induction rest generalizing d with
  | nil => cases h; simp
  | cons x xs ih =>
    unfold mergeFold at h
    cases hs : mergeStep d x <;> rw [hs] at h
    · cases h
    case some d' =>
      rw [ih d' h, mem_pathKeys_mergeStep d x d' hs a]
      simp only [List.mem_cons]
      constructor
      · rintro ((h1 | h1) | ⟨d'', hd'', h1⟩)
        · exact Or.inl h1
        · exact Or.inr ⟨x, Or.inl rfl, h1⟩
        · exact Or.inr ⟨d'', Or.inr hd'', h1⟩
      · rintro (h1 | ⟨d'', hd'' | hd'', h1⟩)
        · exact Or.inl (Or.inl h1)
        · exact Or.inl (Or.inr (hd'' ▸ h1))
        · exact Or.inr ⟨d'', hd'', h1⟩

/-- A successful merge loop preserves duplicate-free path keys. -/
theorem nodup_pathKeys_mergeFold {α : Type} (rest : List (OpenAPI3T α)) (d M : OpenAPI3T α)
    (h : mergeFold rest d = some M) (hm : (pathKeys d).Nodup) : (pathKeys M).Nodup := by
  induction rest generalizing d with
  | nil => cases h; exact hm
  | cons x xs ih =>
    unfold mergeFold at h
    cases hs : mergeStep d x <;> rw [hs] at h
    · cases h
    case some d' => exact ih d' h (nodup_pathKeys_mergeStep d x d' hs hm)

/-- A successful merge loop over documents none of which declares key `a`
leaves its lookup unchanged. -/
theorem docPathLookup_mergeFold_not_mem {α : Type} (rest : List (OpenAPI3T α))
    (d M : OpenAPI3T α) (h : mergeFold rest d = some M) (a : String)
    (ha : ∀ d' ∈ rest, a ∉ pathKeys d') : docPathLookup M a = docPathLookup d a := by
  induction rest generalizing d with
  | nil => cases h; rfl
  | cons x xs ih =>
    unfold mergeFold at h
    cases hs : mergeStep d x <;> rw [hs] at h
    · cases h
    case some d' =>
      rw [ih d' h (fun y hy => ha y (List.mem_cons_of_mem x hy)),
        docPathLookup_mergeStep_not_mem d x d' hs a (ha x (List.mem_cons_self x xs))]

/-- The merge loop over an appended list runs the two segments in
sequence (a panic in the first segment propagates). -/
theorem mergeFold_append {α : Type} (xs ys : List (OpenAPI3T α)) (d : OpenAPI3T α) :
    mergeFold (xs ++ ys) d = (mergeFold xs d).bind (fun acc => mergeFold ys acc) := by
  induction xs generalizing d with
  | nil => rfl
  | cons x xs' ih =>
    have hL : mergeFold (x :: (xs' ++ ys)) d =
        (match mergeStep d x with
         | none => none
         | some m' => mergeFold (xs' ++ ys) m') := rfl
    have hRR : mergeFold (x :: xs') d =
        (match mergeStep d x with
         | none => none
         | some m' => mergeFold xs' m') := rfl
    rw [List.cons_append, hL, hRR]
    cases hs : mergeStep d x
    · rfl
    case some d' => exact ih d'

/-- Splitting a successful merge loop over an appended list. -/
theorem mergeFold_append_some {α : Type} (xs ys : List (OpenAPI3T α)) (d M : OpenAPI3T α)
    (h : mergeFold (xs ++ ys) d = some M) :
    ∃ mid, mergeFold xs d = some mid ∧ mergeFold ys mid = some M := by
  rw [mergeFold_append] at h
  rcases hacc : mergeFold xs d with _ | acc <;> rw [hacc] at h
  · cases h
  · exact ⟨acc, rfl, h⟩

/-- Membership in the distinct-key set. -/
theorem mem_distinctPathKeys {α : Type} (docs : List (OpenAPI3T α)) (a : String) :
    a ∈ distinctPathKeys docs ↔ ∃ d ∈ docs, a ∈ pathKeys d := by
  induction docs with
  | nil => simp [distinctPathKeys]
  | cons d rest ih =>
    rw [show distinctPathKeys (d :: rest) = (pathKeys d).toFinset ∪ distinctPathKeys rest
      from rfl]
    simp [ih]

/-- Under pairwise-disjoint path keys, the distinct-key count is the sum
of the per-document sizes. -/
theorem card_distinctPathKeys_of_disjoint {α : Type} (docs : List (OpenAPI3T α))
    (hnd : ∀ d ∈ docs, (pathKeys d).Nodup) (hdisj : docs.Pairwise disjointPathKeys) :
    (distinctPathKeys docs).card = (docs.map pathCount).sum := by
  induction docs with
  | nil => simp [distinctPathKeys]
  | cons d rest ih =>
    rw [show distinctPathKeys (d :: rest) = (pathKeys d).toFinset ∪ distinctPathKeys rest
      from rfl]
    rcases List.pairwise_cons.mp hdisj with ⟨hd, hrest⟩
    have hdisjf : Disjoint (pathKeys d).toFinset (distinctPathKeys rest) := by
      rw [Finset.disjoint_left]
      intro a ha hb
      rw [List.mem_toFinset] at ha
      rcases (mem_distinctPathKeys rest a).mp hb with ⟨d', hd', had'⟩
      exact hd d' hd' a ha had'
    rw [Finset.card_union_of_disjoint hdisjf,
      ih (fun x hx => hnd x (List.mem_cons_of_mem d hx)) hrest,
      List.toFinset_card_of_nodup (hnd d (List.mem_cons_self d rest))]
    simp [pathCount, pathKeys]

/-- C2: for every non-empty list of canonical documents, each with
duplicate-free path keys (the Go-map well-formedness of `Paths.Map()`)
and a non-nil components pointer (without which the merge loop panics on
its unguarded dereference instead of producing any document), the merge
returns a document whose paths mapping contains exactly the union of the
inputs' path keys; it is itself duplicate-free; its size is the number of
distinct keys across the inputs, which under pairwise-disjoint inputs
equals the sum of the input sizes; and the value stored under any key is
the value from the last (highest-index) input document that declares
it. -/
theorem mergeOpenAPI3_paths_spec {α : Type} :
    ∀ docs : List (OpenAPI3T α), docs ≠ [] → (∀ d ∈ docs, (pathKeys d).Nodup) →
      (∀ d ∈ docs, d.components ≠ none) →
      ∃ M, mergeOpenAPI3 docs = some (.ok M) ∧
        (∀ a, a ∈ pathKeys M ↔ ∃ d ∈ docs, a ∈ pathKeys d) ∧
        (pathKeys M).Nodup ∧
        pathCount M = (distinctPathKeys docs).card ∧
        (docs.Pairwise disjointPathKeys → pathCount M = (docs.map pathCount).sum) ∧
        (∀ (l₁ : List (OpenAPI3T α)) (dd : OpenAPI3T α) (l₂ : List (OpenAPI3T α))
          (a : String), docs = l₁ ++ dd :: l₂ → a ∈ pathKeys dd →
          (∀ d' ∈ l₂, a ∉ pathKeys d') → docPathLookup M a = docPathLookup dd a) := by
  intro docs hne hnd hcomp
  cases docs with
  | nil => exact absurd rfl hne
  | cons d rest =>
  rcases mergeFold_isSome rest d (hcomp d (List.mem_cons_self d rest))
    (fun x hx => hcomp x (List.mem_cons_of_mem d hx)) with ⟨M, hM, _⟩
  have hmerge : mergeOpenAPI3 (d :: rest) = some (.ok M) := by
    rw [show mergeOpenAPI3 (d :: rest) = (mergeFold rest d).map Except.ok from rfl, hM]
    rfl
  have hmem : ∀ a, a ∈ pathKeys M ↔ ∃ d' ∈ d :: rest, a ∈ pathKeys d' := by
    intro a
    rw [mem_pathKeys_mergeFold rest d M hM a]
    simp only [List.mem_cons]
    constructor
    · rintro (h | ⟨d', hd', h⟩)
      · exact ⟨d, Or.inl rfl, h⟩
      · exact ⟨d', Or.inr hd', h⟩
    · rintro ⟨d', hd' | hd', h⟩
      · exact Or.inl (hd' ▸ h)
      · exact Or.inr ⟨d', hd', h⟩
  have hnodup : (pathKeys M).Nodup :=
    nodup_pathKeys_mergeFold rest d M hM (hnd d (List.mem_cons_self d rest))
  have hfin : (pathKeys M).toFinset = distinctPathKeys (d :: rest) := by
    ext a
    rw [List.mem_toFinset, hmem a, mem_distinctPathKeys]
  have hcard : pathCount M = (distinctPathKeys (d :: rest)).card := by
    rw [← hfin, List.toFinset_card_of_nodup hnodup]
    simp [pathCount, pathKeys]
  refine ⟨M, hmerge, hmem, hnodup, hcard, ?_, ?_⟩
  · intro hdisj
    rw [hcard, card_distinctPathKeys_of_disjoint (d :: rest) hnd hdisj]
  · intro l₁ dd l₂ a hdec ha hl₂
    have hnd_dd : (pathKeys dd).Nodup := by
      refine hnd dd ?_
      rw [hdec]
      exact List.mem_append_right l₁ (List.mem_cons_self dd l₂)
    cases l₁ with
    | nil =>
      rw [List.nil_append] at hdec
      obtain ⟨hd0, hrest⟩ := List.cons.inj hdec
      subst hrest
      subst hd0
      exact docPathLookup_mergeFold_not_mem _ _ _ hM a hl₂
    | cons d₀ l₁' =>
      rw [List.cons_append] at hdec
      obtain ⟨hd0, hrest⟩ := List.cons.inj hdec
      subst hrest
      rcases mergeFold_append_some l₁' (dd :: l₂) d M hM with ⟨mid, hmid, htail⟩
      unfold mergeFold at htail
      rcases hstep : mergeStep mid dd with _ | acc' <;> rw [hstep] at htail
      · cases htail
      · rw [docPathLookup_mergeFold_not_mem l₂ acc' M htail a hl₂,
          docPathLookup_mergeStep_mem mid dd acc' hstep a hnd_dd ha]

/-- Witness for `mergeOpenAPI3_paths_spec` at two concrete documents with
non-nil components pointers colliding on `/c`: the merge succeeds and
keeps the second document's value for `/c`. -/
theorem mergeOpenAPI3_paths_spec_witness :
    ([sampleDocA, sampleDocB] : List (OpenAPI3T Nat)) ≠ [] ∧
    (∀ d ∈ ([sampleDocA, sampleDocB] : List (OpenAPI3T Nat)), (pathKeys d).Nodup) ∧
    (∀ d ∈ ([sampleDocA, sampleDocB] : List (OpenAPI3T Nat)), d.components ≠ none) ∧
    ∃ M, mergeOpenAPI3 [sampleDocA, sampleDocB] = some (.ok M) ∧
      docPathLookup M "/c" = some 4 ∧ pathCount M = 3 := by
  have hne : ([sampleDocA, sampleDocB] : List (OpenAPI3T Nat)) ≠ [] := by simp
  have hnd : ∀ d ∈ ([sampleDocA, sampleDocB] : List (OpenAPI3T Nat)), (pathKeys d).Nodup := by
    intro d hd
    rcases List.mem_cons.mp hd with h | h
    · subst h; decide
    · rcases List.mem_cons.mp h with h | h
      · subst h; decide
      · cases h
  have hcomp : ∀ d ∈ ([sampleDocA, sampleDocB] : List (OpenAPI3T Nat)),
      d.components ≠ none := by
    intro d hd
    rcases List.mem_cons.mp hd with h | h
    · subst h; decide
    · rcases List.mem_cons.mp h with h | h
      · subst h; decide
      · cases h
  refine ⟨hne, hnd, hcomp, ?_⟩
  rcases mergeOpenAPI3_paths_spec [sampleDocA, sampleDocB] hne hnd hcomp with
    ⟨M, hM, _, _, hcount, _, hlast⟩
  refine ⟨M, hM, ?_, ?_⟩
  · have := hlast [sampleDocA] sampleDocB [] "/c" rfl (by decide) (by simp)
    rw [this]
    decide
  · rw [hcount]
    decide

end SwaggerMerger
